import Mathlib

/-!
Verification of the Census ETL pipeline (tools/etl): shallow embedding of
the zipcode canonicalization, API chunking, chunk merging, boundary join,
identifier-column discovery, download fallback, and script exit behaviour,
with theorems settling the specification claims.
-/

/-! ## Zipcode canonicalization (`.astype(str).str.zfill(5)`) -/

/-- Python `str.zfill`: left-pad with '0' to `w` characters; a leading sign
character stays in front of the inserted zeros; strings of length ≥ `w`
are returned unchanged. Embeds the `.str.zfill(5)` calls of
`clean_acs_data` and `merge_with_boundaries`. -/
def zfill (w : Nat) (s : String) : String :=
  if w ≤ s.length then s
  else if s.data.headD ' ' = '+' ∨ s.data.headD ' ' = '-' then
    ⟨s.data.headD ' ' :: (List.replicate (w - s.length) '0' ++ s.data.tail)⟩
  else ⟨List.replicate (w - s.length) '0' ++ s.data⟩

/-- Python `str.endswith(suf)` (and pandas `.str.endswith`): the last
characters of `s` equal `suf`. -/
def strEnds (s suf : String) : Bool :=
  suf.data == s.data.drop (s.data.length - suf.data.length)

/-- Python `str.upper()` on the ASCII column names this pipeline deals
with. -/
def upStr (s : String) : String :=
  ⟨s.data.map Char.toUpper⟩

/-! ## Variable chunking (`for i in range(0, len(variables), max_vars_per_request)`) -/

/-- The slicing loop of `fetch_acs_data`: `variables[i:i+c]` for
`i in range(0, len(variables), c)`.  (Python raises on step 0; the claims
only concern `c > 0`, and we return `[]` for `c = 0`.) -/
def chunksOf (c : Nat) (l : List String) : List (List String) :=
  if hc : c = 0 then []
  else if hl : l = [] then []
  else l.take c :: chunksOf c (l.drop c)
termination_by l.length
decreasing_by
  simp only [List.length_drop]
  exact Nat.sub_lt (List.length_pos.mpr hl) (Nat.pos_of_ne_zero hc)

/-! ## Chunk fetch outcomes (`fetch_acs_data` request loop) -/

/-- Tabular data: column names plus rows; a row is an association list from
column name to an optional (possibly-NaN) string cell.  Embeds a pandas
DataFrame with uniquely named columns. -/
structure Table where
  cols : List String
  rows : List (List (String × Option String))
deriving DecidableEq

abbrev Row := List (String × Option String)

/-- Outcome of one Census API chunk request: a caught
`requests.exceptions.RequestException`, or a JSON 2D array (header row
first). -/
inductive ChunkOutcome where
  | reqError : ChunkOutcome
  | ok : List (List String) → ChunkOutcome

/-- `pd.DataFrame(data[1:], columns=data[0])`. -/
def toTable (data : List (List String)) : Table :=
  match data with
  | [] => { cols := [], rows := [] }
  | hdr :: rest => { cols := hdr, rows := rest.map (fun vals => hdr.zip (vals.map some)) }

/-- A chunk contributes data exactly when it did not raise a request error
and its JSON array has at least a header row and one data row
(`if not data or len(data) < 2: continue`). -/
def chunkUsable : ChunkOutcome → Bool
  | .reqError => false
  | .ok d => decide (2 ≤ d.length)

/-- The `all_data` accumulation of `fetch_acs_data`: usable chunks become
DataFrames, failed or short chunks are skipped. -/
def collectChunks (outs : List ChunkOutcome) : List Table :=
  outs.filterMap (fun o =>
    match o with
    | .reqError => none
    | .ok d => if 2 ≤ d.length then some (toTable d) else none)

/-! ## Row access and merge primitives (pandas `merge`) -/

/-- Cell of a row at a named column: `none` both for a NaN cell and for an
absent column (pandas would raise on the latter; the claims only access
declared columns). -/
def getVal (r : Row) (c : String) : Option String :=
  match r.find? (fun p => p.fst == c) with
  | some p => p.snd
  | none => none

/-- Whether a row carries an entry for column `c`. -/
def hasCol (r : Row) (c : String) : Bool :=
  r.any (fun p => p.fst == c)

/-- Overlapping non-key columns of the two frames: pandas applies the merge
suffixes exactly to these. -/
def overlapCols (l r : Table) (key : String) : List String :=
  l.cols.filter (fun c => c != key && r.cols.contains c)

/-- Suffix-renaming of one column name. -/
def renCol (ov : List String) (suf : String) (c : String) : String :=
  if ov.contains c then c ++ suf else c

/-- Left-frame part of a merged row: all entries, overlap renamed with the
left suffix. -/
def leftPart (ov : List String) (sl : String) (row : Row) : Row :=
  row.map (fun p => (renCol ov sl p.fst, p.snd))

/-- Right-frame part of a merged row: key entry dropped, overlap renamed
with the right suffix. -/
def rightPart (ov : List String) (sr : String) (key : String) (row : Row) : Row :=
  (row.filter (fun p => p.fst != key)).map (fun p => (renCol ov sr p.fst, p.snd))

/-- Names of the right frame's non-key columns after suffixing. -/
def rightColsRen (r : Table) (ov : List String) (sr : String) (key : String) : List String :=
  (r.cols.filter (fun c => c != key)).map (renCol ov sr)

/-- All-NaN right part used for left rows without a match. -/
def missingRight (rcols : List String) : Row :=
  rcols.map (fun c => (c, (none : Option String)))

/-- Right rows whose key matches cell `k`. -/
def matchesOf (r : Table) (key : String) (k : Option String) : List Row :=
  r.rows.filter (fun rr => getVal rr key == k)

/-- Column list of a pandas merge result: left columns (suffixed on
overlap) then the right frame's non-key columns (suffixed on overlap). -/
def mergedCols (l r : Table) (key sl sr : String) : List String :=
  l.cols.map (renCol (overlapCols l r key) sl) ++
    rightColsRen r (overlapCols l r key) sr key

/-- Rows of `l.merge(r, on=key, how='left')`: each left row pairs with every
matching right row, or with an all-NaN right part when none matches. -/
def leftMergeRows (l r : Table) (key sl sr : String) : List Row :=
  let ov := overlapCols l r key
  let rc := rightColsRen r ov sr key
  l.rows.flatMap (fun lr =>
    match matchesOf r key (getVal lr key) with
    | [] => [leftPart ov sl lr ++ missingRight rc]
    | ms => ms.map (fun rr => leftPart ov sl lr ++ rightPart ov sr key rr))

/-- `l.merge(r, on=key, how='left', suffixes=(sl, sr))`. -/
def leftMerge (l r : Table) (key sl sr : String) : Table :=
  { cols := mergedCols l r key sl sr, rows := leftMergeRows l r key sl sr }

/-- Extra rows an outer merge appends for right rows with no left match:
left columns all NaN except the key, which carries the right key. -/
def rightOnlyRows (l r : Table) (key sl sr : String) : List Row :=
  let ov := overlapCols l r key
  (r.rows.filter (fun rr => !(l.rows.any (fun lr => getVal lr key == getVal rr key)))).map
    (fun rr =>
      l.cols.map (fun c => (renCol ov sl c, if c == key then getVal rr key else none)) ++
        rightPart ov sr key rr)

/-- `l.merge(r, on=key, how='outer', suffixes=(sl, sr))`. -/
def outerMerge (l r : Table) (key sl sr : String) : Table :=
  { cols := mergedCols l r key sl sr,
    rows := leftMergeRows l r key sl sr ++ rightOnlyRows l r key sl sr }

/-- `df = df.loc[:, ~df.columns.str.endswith('_dup')]`. -/
def dropDupCols (t : Table) : Table :=
  { cols := t.cols.filter (fun c => !(strEnds c "_dup")),
    rows := t.rows.map (fun row => row.filter (fun p => !(strEnds p.fst "_dup"))) }

/-! ## Chunk merging (`fetch_acs_data` merge loop) -/

/-- The candidate identifier columns tried by the Statistical Data Loader:
`['zip code tabulation area', 'ZCTA5', 'ZIPCODE']`. -/
def zipCandidates : List String := ["zip code tabulation area", "ZCTA5", "ZIPCODE"]

/-- First candidate present in both column sets (`if col in df.columns and
col in chunk.columns`). -/
def findSharedZip (dcols ccols : List String) : Option String :=
  zipCandidates.find? (fun c => dcols.contains c && ccols.contains c)

/-- `pd.concat([df, chunk], axis=1)` on default positional indexes: rows
aligned by position, the shorter side NaN-filled. -/
def concatCols (a b : Table) : Table :=
  { cols := a.cols ++ b.cols,
    rows := (List.range (max a.rows.length b.rows.length)).map (fun i =>
      a.rows.getD i (missingRight a.cols) ++ b.rows.getD i (missingRight b.cols)) }

/-- One iteration of the merge loop in `fetch_acs_data`: outer-merge on the
shared zipcode column with suffixes `('', '_dup')` and drop the
`_dup`-suffixed columns; with no shared column, concatenate. -/
def mergeChunkStep (df chunk : Table) : Table :=
  match findSharedZip df.cols chunk.cols with
  | some key => dropDupCols (outerMerge df chunk key "" "_dup")
  | none => concatCols df chunk

/-- `fetch_acs_data`, over the per-chunk request outcomes: raise when no
chunk was usable, otherwise fold the merge step over the collected chunk
tables (`df = all_data[0]; for chunk in all_data[1:]`). -/
def fetch_acs_data (outs : List ChunkOutcome) : Except String Table :=
  match collectChunks outs with
  | [] => .error "No data was successfully fetched from Census API"
  | t :: rest => .ok (rest.foldl mergeChunkStep t)

/-! ## Cleaning and the boundary join -/

/-- `.astype(str)` on one cell: pandas renders a NaN cell as the string
"nan". -/
def astypeStr : Option String → String
  | some s => s
  | none => "nan"

/-- Canonicalization of one identifier cell:
`.astype(str).str.zfill(5)`. -/
def canonCell (c : Option String) : Option String :=
  some (zfill 5 (astypeStr c))

/-- One row after `df['ZIPCODE'] = df['ZIPCODE'].astype(str).str.zfill(5)`:
only the ZIPCODE entry changes. -/
def canonRow (row : Row) : Row :=
  row.map (fun p => if p.fst == "ZIPCODE" then (p.fst, canonCell p.snd) else p)

/-- `df['ZIPCODE'] = df['ZIPCODE'].astype(str).str.zfill(5)` applied to a
table. -/
def canonZipCol (t : Table) : Table :=
  { cols := t.cols, rows := t.rows.map canonRow }

/-- `merge_with_boundaries`: canonicalize the ZIPCODE column on both the
boundary and the statistical side, then
`boundaries.merge(acs_df, on='ZIPCODE', how='left')` (pandas default
suffixes `('_x', '_y')`). -/
def merge_with_boundaries (boundaries acs : Table) : Table :=
  leftMerge (canonZipCol boundaries) (canonZipCol acs) "ZIPCODE" "_x" "_y"

/-- Identifier-column resolution of `clean_acs_data`: first candidate
present among the columns. -/
def acsZipcodeCol (cols : List String) : Option String :=
  zipCandidates.find? (fun c => cols.contains c)

/-! ## Boundary Loader column discovery (`extract_zipcode_boundaries`) -/

/-- `p` occurs as a contiguous run inside `s` (character lists). -/
def strHas (p s : List Char) : Bool :=
  match s with
  | [] => p == []
  | _ :: t => (p == s.take p.length) || strHas p t

/-- Substring test on strings (`'ZCTA' in col.upper()`). -/
def containsSub (p s : String) : Bool :=
  strHas p.data s.data

/-- `'ZCTA' in col.upper() or 'ZIP' in col.upper()`. -/
def zipish (c : String) : Bool :=
  containsSub "ZCTA" (upStr c) || containsSub "ZIP" (upStr c)

/-- Identifier-column resolution of `extract_zipcode_boundaries`: the
renames `ZCTA5CE20` / `ZCTA5CE10` / `ZCTA5` → `ZIPCODE` tried in order,
then an existing `ZIPCODE` column, then the first column whose upper-cased
name contains `ZCTA` or `ZIP`; `none` models the raised
"Could not find ZIPCODE column" exception. -/
def tigerZipcodeCol (cols : List String) : Option String :=
  if cols.contains "ZCTA5CE20" then some "ZCTA5CE20"
  else if cols.contains "ZCTA5CE10" then some "ZCTA5CE10"
  else if cols.contains "ZCTA5" then some "ZCTA5"
  else if cols.contains "ZIPCODE" then some "ZIPCODE"
  else cols.find? zipish

/-! ## TIGER download fallback (`extract_zipcode_boundaries`, download phase) -/

def TIGER_BASE_URL : String := "https://www2.census.gov/geo/tiger"

def TIGER_YEAR : Nat := 2025

/-- `tl_{year}_us_zcta520.zip`. -/
def tigerFile (year : Nat) : String :=
  "tl_" ++ toString year ++ "_us_zcta520.zip"

/-- `{TIGER_BASE_URL}/TIGER{year}/ZCTA5/{tiger_file}`. -/
def tigerUrl (year : Nat) : String :=
  TIGER_BASE_URL ++ "/TIGER" ++ toString year ++ "/ZCTA5/" ++ tigerFile year

/-- The download phase of `extract_zipcode_boundaries`: `dl y` is the
result of `download_tiger_file` for year `y` (its internal retry loop
included); `zipExists` is `zip_path.exists()`.  Returns the year whose
archive is used, or the message of the raised exception. -/
def tigerDownloadPhase (dl : Nat → Bool) (zipExists : Bool) : Except String Nat :=
  if zipExists then .ok TIGER_YEAR
  else if dl TIGER_YEAR then .ok TIGER_YEAR
  else if 2020 < TIGER_YEAR then
    if dl (TIGER_YEAR - 1) then .ok (TIGER_YEAR - 1)
    else .error ("Failed to download TIGER file from both " ++ toString TIGER_YEAR
      ++ " and " ++ toString (TIGER_YEAR - 1))
  else .error ("Failed to download TIGER file: " ++ tigerUrl TIGER_YEAR)

/-! ## Script exit codes -/

/-- The `try: main() except Exception: ... exit(1)` wrapper shared by
`load_tiger_zipcode_boundaries.py` and `load_acs_zipcode_data.py`. -/
def loaderExitCode (outcome : Except String Unit) : Nat :=
  match outcome with
  | .ok _ => 0
  | .error _ => 1

/-- Environment of `export_to_json`: whether the GPKG container exists,
whether the `acs_data` layer read succeeds, whether the
`acs_data_table` + `zipcodes` fallback succeeds, and whether the JSON
write succeeds. -/
structure ExportEnv where
  gpkgExists : Bool
  acsLayerOk : Bool
  tableFallbackOk : Bool
  writeOk : Bool
deriving DecidableEq

/-- `export_to_json`: returns `False` on a missing container, on a failed
read (both layer and fallback), or on a failed write; `True` on success.
Every exception is caught inside the function. -/
def export_to_json (e : ExportEnv) : Bool :=
  if !e.gpkgExists then false
  else if e.acsLayerOk then e.writeOk
  else if e.tableFallbackOk then e.writeOk
  else false

/-- The `__main__` block of `export_to_json.py`: calls `export_to_json()`
and discards its Boolean result, so the process ends normally. -/
def exportMainExitCode (e : ExportEnv) : Nat :=
  let _ := export_to_json e
  0

/-- Environment of `convert_geometry_to_wkt`: whether the GPKG container
exists and whether the read-convert-write block succeeds. -/
structure WktEnv where
  gpkgExists : Bool
  stepsOk : Bool
deriving DecidableEq

/-- `convert_geometry_to_wkt`: `False` on a missing container or any
exception in the read-convert-write block, `True` on success. -/
def convert_geometry_to_wkt (e : WktEnv) : Bool :=
  if !e.gpkgExists then false
  else e.stepsOk

/-- The `__main__` block of `convert_geometry_to_wkt.py`: calls the
function and discards its Boolean result. -/
def wktMainExitCode (e : WktEnv) : Nat :=
  let _ := convert_geometry_to_wkt e
  0

/-! ## Concrete example tables -/

/-- A one-row boundary table (layer `zipcodes`). -/
def boundaryEx : Table :=
  { cols := ["ZIPCODE", "geometry"],
    rows := [[("ZIPCODE", some "11111"), ("geometry", some "POLYGON((0 0,1 0,1 1,0 0))")]] }

/-- A statistical table holding two rows for the same identifier. -/
def acsDupEx : Table :=
  { cols := ["ZIPCODE", "B01001_001E"],
    rows := [[("ZIPCODE", some "11111"), ("B01001_001E", some "5")],
             [("ZIPCODE", some "11111"), ("B01001_001E", some "7")]] }

/-- A statistical table whose only identifier matches no boundary row. -/
def acsMissEx : Table :=
  { cols := ["ZIPCODE", "B01001_001E"],
    rows := [[("ZIPCODE", some "99999"), ("B01001_001E", some "5")]] }

/-- A first chunk table as built from a Census API response. -/
def chunkEx1 : Table :=
  { cols := ["B01001_001E", "zip code tabulation area"],
    rows := [[("B01001_001E", some "120"), ("zip code tabulation area", some "64101")]] }

/-- A second chunk table sharing the geographic-identifier column. -/
def chunkEx2 : Table :=
  { cols := ["B19013_001E", "zip code tabulation area"],
    rows := [[("B19013_001E", some "52000"), ("zip code tabulation area", some "64102")]] }

/-! # Theorems -/

/-! ## Helper lemmas on chunking -/

theorem chunksOf_flatten (c : Nat) (hc : c ≠ 0) :
    ∀ l : List String, (chunksOf c l).flatten = l := by
  intro l
  induction l using chunksOf.induct c with
  | case1 x h => exact absurd h hc
  | case2 h => rw [chunksOf]; simp
  | case3 x h hx ih =>
    rw [chunksOf]
    simp only [dif_neg h, dif_neg hx, List.flatten_cons, ih, List.take_append_drop]

theorem chunksOf_length (c : Nat) (hc : 0 < c) :
    ∀ l : List String, (chunksOf c l).length = (l.length + c - 1) / c := by
  intro l
  induction l using chunksOf.induct c with
  | case1 x h => omega
  | case2 h =>
    rw [chunksOf, dif_neg h, dif_pos rfl]
    simp only [List.length_nil]
    rw [Nat.div_eq_of_lt (by omega)]
  | case3 x h hx ih =>
    rw [chunksOf]
    simp only [dif_neg h, dif_neg hx, List.length_cons, ih, List.length_drop]
    have hn : 1 ≤ x.length := List.length_pos.mpr hx
    rcases le_or_lt x.length c with hle | hlt
    · have h1 : x.length - c = 0 := by omega
      have h2 : x.length + c - 1 = (x.length - 1) + c := by omega
      rw [h1, h2, Nat.add_div_right _ hc, Nat.div_eq_of_lt (by omega),
        Nat.div_eq_of_lt (by omega)]
    · have h1 : x.length - c + c - 1 = (x.length - c - 1) + c := by omega
      have h2 : x.length + c - 1 = ((x.length - c - 1) + c) + c := by omega
      rw [h1, h2, Nat.add_div_right _ hc, Nat.add_div_right _ hc,
        Nat.add_div_right _ hc]

theorem chunksOf_short (c : Nat) (hc : c ≠ 0) :
    ∀ l : List String, ∀ ch ∈ chunksOf c l, ch.length ≤ c := by
  intro l
  induction l using chunksOf.induct c with
  | case1 x h => exact absurd h hc
  | case2 h => rw [chunksOf]; simp
  | case3 x h hx ih =>
    rw [chunksOf]
    simp only [dif_neg h, dif_neg hx]
    intro ch hch
    rcases List.mem_cons.mp hch with hhd | htl
    · subst hhd
      rw [List.length_take]
      exact Nat.min_le_left _ _
    · exact ih ch htl

/-! ## Claim theorems: chunking and canonicalization -/

/-- Claim C4: for a variable list of length N and chunk size C > 0 the
slicing loop of `fetch_acs_data` produces exactly ⌈N/C⌉ chunks, each of at
most C variables, whose concatenation (hence union) is the original
list. -/
theorem fetch_chunking_correct : ∀ (l : List String) (c : Nat), 0 < c →
    (chunksOf c l).length = (l.length + c - 1) / c
    ∧ (∀ ch ∈ chunksOf c l, ch.length ≤ c)
    ∧ (chunksOf c l).flatten = l
    ∧ (∀ v, v ∈ l ↔ ∃ ch ∈ chunksOf c l, v ∈ ch) := by
  intro l c hc
  have hne : c ≠ 0 := Nat.pos_iff_ne_zero.mp hc
  refine ⟨chunksOf_length c hc l, chunksOf_short c hne l, chunksOf_flatten c hne l, ?_⟩
  intro v
  constructor
  · intro hv
    exact List.mem_flatten.mp ((chunksOf_flatten c hne l).symm ▸ hv)
  · intro hv
    exact (chunksOf_flatten c hne l) ▸ List.mem_flatten.mpr hv

/-- Witness for C4 at a concrete three-element list with chunk size 2. -/
theorem fetch_chunking_correct_witness :
    (chunksOf 2 ["A", "B", "C"]).length = (3 + 2 - 1) / 2
    ∧ (chunksOf 2 ["A", "B", "C"]).flatten = ["A", "B", "C"] :=
  ⟨(fetch_chunking_correct ["A", "B", "C"] 2 (by decide)).1,
   (fetch_chunking_correct ["A", "B", "C"] 2 (by decide)).2.2.1⟩

/-- Claim C9: `zfill 5` never truncates; identifiers longer than 5
characters pass through unchanged. -/
theorem zfill_no_truncation : ∀ s : String, 5 < s.length → zfill 5 s = s := by
  intro s h
  rw [zfill, if_pos (Nat.le_of_lt h)]

/-- Witness for C9 at a six-character identifier. -/
theorem zfill_no_truncation_witness : zfill 5 "123456" = "123456" :=
  zfill_no_truncation "123456" (by decide)

/-- Claim C1: on a numeric identifier of at most 5 characters the
canonicalization `str` + `zfill(5)` yields a 5-character left-zero-padded
string, and `merge_with_boundaries` applies exactly this canonicalization
to the ZIPCODE column of both the boundary side and the statistical side
before the join. -/
theorem canonical_zipcode_form :
    (∀ s : String, (∀ ch ∈ s.data, ch.isDigit) → s.length ≤ 5 →
      (zfill 5 s).length = 5
      ∧ (zfill 5 s).data = List.replicate (5 - s.length) '0' ++ s.data)
    ∧ ∀ b a : Table,
        merge_with_boundaries b a
          = leftMerge (canonZipCol b) (canonZipCol a) "ZIPCODE" "_x" "_y" := by
  refine ⟨?_, fun b a => rfl⟩
  intro s hdig hlen
  rcases Nat.lt_or_ge s.length 5 with hlt | hge
  · have hnot : ¬(s.data.headD ' ' = '+' ∨ s.data.headD ' ' = '-') := by
      cases hd : s.data with
      | nil => rintro (h | h) <;> simp at h
      | cons c cs =>
        have hcdig : c.isDigit := hdig c (by rw [hd]; exact List.mem_cons_self _ _)
        simp only [List.headD_cons]
        rintro (rfl | rfl) <;> simp [Char.isDigit] at hcdig
    rw [zfill, if_neg (by omega), if_neg hnot]
    have hdl : s.data.length = s.length := rfl
    constructor
    · show (List.replicate (5 - s.length) '0' ++ s.data).length = 5
      rw [List.length_append, List.length_replicate]
      omega
    · rfl
  · have h5 : s.length = 5 := by omega
    rw [zfill, if_pos (by omega)]
    refine ⟨h5, ?_⟩
    rw [h5]
    simp

/-- Witness for C1 at the three-digit identifier "123". -/
theorem canonical_zipcode_form_witness :
    (zfill 5 "123").length = 5
    ∧ (zfill 5 "123").data = List.replicate (5 - "123".length) '0' ++ "123".data :=
  canonical_zipcode_form.1 "123" (by decide) (by decide)

/-! ## Helper lemmas on chunk collection -/

theorem collectChunks_eq_nil_iff (outs : List ChunkOutcome) :
    collectChunks outs = [] ↔ ∀ o ∈ outs, chunkUsable o = false := by
  induction outs with
  | nil => simp [collectChunks]
  | cons o t ih =>
    cases o with
    | reqError =>
      simp only [collectChunks, List.filterMap_cons] at *
      simpa [chunkUsable] using ih
    | ok d =>
      by_cases hd : 2 ≤ d.length
      · simp only [collectChunks, List.filterMap_cons] at *
        simp [hd, chunkUsable]
      · simp only [collectChunks, List.filterMap_cons] at *
        simpa [hd, chunkUsable] using ih

theorem collectChunks_skip_failed (outs : List ChunkOutcome) :
    collectChunks (outs.filter chunkUsable) = collectChunks outs := by
  induction outs with
  | nil => rfl
  | cons o t ih =>
    cases o with
    | reqError =>
      simp only [List.filter_cons, chunkUsable, collectChunks, List.filterMap_cons] at *
      simpa using ih
    | ok d =>
      by_cases hd : 2 ≤ d.length
      · simp only [List.filter_cons, chunkUsable, collectChunks, List.filterMap_cons] at *
        simpa [hd] using ih
      · simp only [List.filter_cons, chunkUsable, collectChunks, List.filterMap_cons] at *
        simpa [hd] using ih

/-- Claim C3: `fetch_acs_data` raises exactly when no chunk produced usable
data (every chunk either hit a request error or returned fewer than two
rows); failed chunks contribute nothing to the merged tables. -/
theorem fetch_raises_iff_all_chunks_failed : ∀ outs : List ChunkOutcome,
    ((∃ e, fetch_acs_data outs = .error e) ↔ ∀ o ∈ outs, chunkUsable o = false)
    ∧ collectChunks outs = collectChunks (outs.filter chunkUsable) := by
  intro outs
  refine ⟨?_, (collectChunks_skip_failed outs).symm⟩
  unfold fetch_acs_data
  cases hcc : collectChunks outs with
  | nil =>
    constructor
    · intro _
      exact (collectChunks_eq_nil_iff outs).mp hcc
    · intro _
      exact ⟨_, rfl⟩
  | cons tt rest =>
    constructor
    · rintro ⟨e, he⟩
      exact absurd he (by simp)
    · intro hall
      have h := (collectChunks_eq_nil_iff outs).mpr hall
      rw [hcc] at h
      exact absurd h (List.cons_ne_nil _ _)

/-- Claim C8: when two chunk tables share a geographic-identifier column,
the merge step of `fetch_acs_data` leaves no `_dup`-suffixed column,
neither among the column names nor in any row. -/
theorem merge_never_keeps_dup_columns : ∀ (df chunk : Table) (key : String),
    findSharedZip df.cols chunk.cols = some key →
    (∀ c ∈ (mergeChunkStep df chunk).cols, strEnds c "_dup" = false)
    ∧ (∀ r ∈ (mergeChunkStep df chunk).rows, ∀ p ∈ r, strEnds p.fst "_dup" = false) := by
  intro df chunk key h
  unfold mergeChunkStep
  rw [h]
  constructor
  · intro c hcmem
    have h2 := (List.mem_filter.mp hcmem).2
    simpa using h2
  · intro r hrmem p hpmem
    rcases List.mem_map.mp hrmem with ⟨row, _, hrow⟩
    subst hrow
    have h2 := (List.mem_filter.mp hpmem).2
    simpa using h2

/-- Witness for C8 at two one-row chunk tables sharing the column
`zip code tabulation area`: the second chunk's variable column is a
column of the merge result and carries no `_dup` suffix. -/
theorem merge_never_keeps_dup_columns_witness :
    "B19013_001E" ∈ (mergeChunkStep chunkEx1 chunkEx2).cols
    ∧ strEnds "B19013_001E" "_dup" = false :=
  ⟨by decide,
   (merge_never_keeps_dup_columns chunkEx1 chunkEx2 "zip code tabulation area"
      (by decide)).1 "B19013_001E" (by decide)⟩

/-- Claim C6 counterexample: with the container file missing, both the JSON
exporter and the WKT exporter take their error path (they report failure by
returning `False`), yet their `__main__` blocks ignore the result and the
process exits with code 0, not a non-zero code. -/
theorem exporter_error_path_exits_zero :
    export_to_json ⟨false, true, true, true⟩ = false
    ∧ exportMainExitCode ⟨false, true, true, true⟩ = 0
    ∧ convert_geometry_to_wkt ⟨false, true⟩ = false
    ∧ wktMainExitCode ⟨false, true⟩ = 0 := by
  decide

/-- Claim C6 amended: the two loader scripts exit 1 on any error reaching
their top-level handler and 0 on success, while the two exporter scripts
always exit 0, signalling failure only through their printed message and
Boolean return value. -/
theorem loaders_exit_nonzero_exporters_exit_zero :
    (∀ msg : String, loaderExitCode (.error msg) = 1)
    ∧ loaderExitCode (.ok ()) = 0
    ∧ (∀ e : ExportEnv, exportMainExitCode e = 0)
    ∧ (∀ e : WktEnv, wktMainExitCode e = 0) :=
  ⟨fun _ => rfl, rfl, fun _ => rfl, fun _ => rfl⟩

/-- Claim C7 counterexample: when the download fails for both the
configured year (2025) and the fallback year (2024), the raised fatal
error names the two years but no URL: the failed URLs (and even the
scheme substring "http") do not occur in the message. -/
theorem tiger_both_fail_message_lacks_url :
    tigerDownloadPhase (fun _ => false) false
      = .error "Failed to download TIGER file from both 2025 and 2024"
    ∧ containsSub "http" "Failed to download TIGER file from both 2025 and 2024" = false
    ∧ containsSub (tigerUrl 2025)
        "Failed to download TIGER file from both 2025 and 2024" = false
    ∧ containsSub (tigerUrl 2024)
        "Failed to download TIGER file from both 2025 and 2024" = false := by
  refine ⟨by rfl, by decide, by decide, by decide⟩

/-- Claim C7 amended: when the download fails for the configured year and
for the fallback prior year, `extract_zipcode_boundaries` aborts with a
fatal error naming both failed years (the URL is only named by the
no-fallback branch, which is unreachable for the configured year 2025). -/
theorem tiger_both_fail_names_years :
    ∀ dl : Nat → Bool, dl TIGER_YEAR = false → dl (TIGER_YEAR - 1) = false →
      tigerDownloadPhase dl false
        = .error ("Failed to download TIGER file from both "
            ++ toString TIGER_YEAR ++ " and " ++ toString (TIGER_YEAR - 1))
      ∧ containsSub (toString TIGER_YEAR)
          ("Failed to download TIGER file from both "
            ++ toString TIGER_YEAR ++ " and " ++ toString (TIGER_YEAR - 1)) = true
      ∧ containsSub (toString (TIGER_YEAR - 1))
          ("Failed to download TIGER file from both "
            ++ toString TIGER_YEAR ++ " and " ++ toString (TIGER_YEAR - 1)) = true := by
  intro dl h1 h2
  refine ⟨?_, by decide, by decide⟩
  have h1' : dl 2025 = false := h1
  have h2' : dl 2024 = false := h2
  unfold tigerDownloadPhase
  simp [h1', h2', TIGER_YEAR]

/-- Witness for the amended C7 with a download stub that always fails. -/
theorem tiger_both_fail_names_years_witness :
    tigerDownloadPhase (fun _ => false) false
      = .error ("Failed to download TIGER file from both "
          ++ toString TIGER_YEAR ++ " and " ++ toString (TIGER_YEAR - 1))
    ∧ containsSub (toString TIGER_YEAR)
        ("Failed to download TIGER file from both "
          ++ toString TIGER_YEAR ++ " and " ++ toString (TIGER_YEAR - 1)) = true
    ∧ containsSub (toString (TIGER_YEAR - 1))
        ("Failed to download TIGER file from both "
          ++ toString TIGER_YEAR ++ " and " ++ toString (TIGER_YEAR - 1)) = true :=
  tiger_both_fail_names_years (fun _ => false) rfl rfl

/-! ## Helper lemmas on membership -/

theorem mem_of_contains {l : List String} {a : String} (h : l.contains a = true) :
    a ∈ l := by
  simpa using h

theorem contains_of_mem {l : List String} {a : String} (h : a ∈ l) :
    l.contains a = true := by
  simpa using h

/-- Claim C5 counterexample: on the column set
`["zip code tabulation area", "ZIPCODE"]` the Statistical Loader resolves
`zip code tabulation area` while the Boundary Loader's discovery logic
resolves `ZIPCODE`: the two priority lists are not the same. -/
theorem loaders_resolve_different_columns :
    acsZipcodeCol ["zip code tabulation area", "ZIPCODE"]
      = some "zip code tabulation area"
    ∧ tigerZipcodeCol ["zip code tabulation area", "ZIPCODE"] = some "ZIPCODE"
    ∧ acsZipcodeCol ["zip code tabulation area", "ZIPCODE"]
      ≠ tigerZipcodeCol ["zip code tabulation area", "ZIPCODE"] := by
  decide

/-- Claim C5 amended: the loaders use different candidate lists, but when
the column set contains exactly one zipcode-like column (upper-cased name
containing "ZCTA" or "ZIP") and the Statistical Loader's resolution
succeeds, the Boundary Loader's discovery resolves the same column. -/
theorem loaders_agree_on_unique_zip_column :
    ∀ (cols : List String) (c : String),
      (∀ x ∈ cols, zipish x = true → ∀ y ∈ cols, zipish y = true → x = y) →
      acsZipcodeCol cols = some c →
      tigerZipcodeCol cols = some c := by
  intro cols c huniq hacs
  have hc_cand : c ∈ zipCandidates := List.mem_of_find?_eq_some hacs
  have hc_pred : cols.contains c = true := List.find?_some hacs
  have hc_mem : c ∈ cols := mem_of_contains hc_pred
  have hc_zip : zipish c = true := by
    have h := hc_cand
    simp only [zipCandidates, List.mem_cons, List.not_mem_nil, or_false] at h
    rcases h with rfl | rfl | rfl <;> decide
  have huniq_c : ∀ y ∈ cols, zipish y = true → y = c := fun y hy hyz =>
    huniq y hy hyz c hc_mem hc_zip
  unfold tigerZipcodeCol
  by_cases h20 : cols.contains "ZCTA5CE20" = true
  · exact absurd hc_cand
      (by rw [← huniq_c "ZCTA5CE20" (mem_of_contains h20) (by decide)]; decide)
  · rw [if_neg h20]
    by_cases h10 : cols.contains "ZCTA5CE10" = true
    · exact absurd hc_cand
        (by rw [← huniq_c "ZCTA5CE10" (mem_of_contains h10) (by decide)]; decide)
    · rw [if_neg h10]
      by_cases h5 : cols.contains "ZCTA5" = true
      · rw [if_pos h5, huniq_c "ZCTA5" (mem_of_contains h5) (by decide)]
      · rw [if_neg h5]
        by_cases hz : cols.contains "ZIPCODE" = true
        · rw [if_pos hz, huniq_c "ZIPCODE" (mem_of_contains hz) (by decide)]
        · rw [if_neg hz]
          cases hfind : cols.find? zipish with
          | none =>
            exfalso
            have hs : (cols.find? zipish).isSome = true :=
              List.find?_isSome.mpr ⟨c, hc_mem, hc_zip⟩
            rw [hfind] at hs
            simp at hs
          | some d =>
            rw [huniq_c d (List.mem_of_find?_eq_some hfind) (List.find?_some hfind)]

/-- Witness for the amended C5: a column set whose only zipcode-like column
is `ZCTA5`, resolved identically by both loaders. -/
theorem loaders_agree_on_unique_zip_column_witness :
    tigerZipcodeCol ["STATE", "ZCTA5"] = some "ZCTA5" :=
  loaders_agree_on_unique_zip_column ["STATE", "ZCTA5"] "ZCTA5" (by decide) (by decide)

/-! ## Helper lemmas on row access -/

theorem getVal_cons_pos (p : String × Option String) (t : Row) (c : String)
    (hp : (p.fst == c) = true) : getVal (p :: t) c = p.snd := by
  unfold getVal
  rw [@List.find?_cons_of_pos _ (fun q => q.fst == c) p t hp]

theorem getVal_cons_neg (p : String × Option String) (t : Row) (c : String)
    (hp : ¬(p.fst == c) = true) : getVal (p :: t) c = getVal t c := by
  unfold getVal
  rw [@List.find?_cons_of_neg _ (fun q => q.fst == c) p t hp]

theorem getVal_append_has (r1 r2 : Row) (c : String) (h : hasCol r1 c = true) :
    getVal (r1 ++ r2) c = getVal r1 c := by
  induction r1 with
  | nil => simp [hasCol] at h
  | cons p t ih =>
    rw [List.cons_append]
    by_cases hp : (p.fst == c) = true
    · rw [getVal_cons_pos p (t ++ r2) c hp, getVal_cons_pos p t c hp]
    · have ht : hasCol t c = true := by
        simp only [hasCol, List.any_cons, hp, Bool.false_or] at h
        exact h
      rw [getVal_cons_neg p (t ++ r2) c hp, getVal_cons_neg p t c hp]
      exact ih ht

theorem getVal_append_not_has (r1 r2 : Row) (c : String) (h : hasCol r1 c = false) :
    getVal (r1 ++ r2) c = getVal r2 c := by
  induction r1 with
  | nil => rfl
  | cons p t ih =>
    simp only [hasCol, List.any_cons, Bool.or_eq_false_iff] at h
    have hp : ¬(p.fst == c) = true := by simp [h.1]
    rw [List.cons_append, getVal_cons_neg p (t ++ r2) c hp]
    exact ih (by simp [hasCol, h.2])

theorem getVal_none_of_not_has (r : Row) (c : String) (h : hasCol r c = false) :
    getVal r c = none := by
  have h2 := getVal_append_not_has r [] c h
  simpa using h2

theorem hasCol_of_getVal_some (r : Row) (c : String) (v : String)
    (h : getVal r c = some v) : hasCol r c = true := by
  unfold getVal at h
  cases hf : r.find? (fun p => p.fst == c) with
  | none => rw [hf] at h; exact absurd h (by simp)
  | some p =>
    have hmem := List.mem_of_find?_eq_some hf
    have hpc := List.find?_some hf
    unfold hasCol
    rw [List.any_eq_true]
    exact ⟨p, hmem, hpc⟩

theorem getVal_missingRight (rcols : List String) (c : String) :
    getVal (missingRight rcols) c = none := by
  induction rcols with
  | nil => rfl
  | cons d t ih =>
    unfold missingRight
    rw [List.map_cons]
    by_cases hd : ((d, (none : Option String)).fst == c) = true
    · rw [getVal_cons_pos _ _ c hd]
    · rw [getVal_cons_neg _ _ c hd]
      exact ih

theorem hasCol_false_of_not_mem (r : Row) (cols : List String) (c : String)
    (hwf : ∀ p ∈ r, p.fst ∈ cols) (hc : c ∉ cols) : hasCol r c = false := by
  unfold hasCol
  rw [List.any_eq_false]
  intro p hp hbeq
  exact hc (beq_iff_eq.mp hbeq ▸ hwf p hp)

/-! ## Helper lemmas on suffix renaming -/

theorem renCol_empty_suf (ov : List String) (c : String) : renCol ov "" c = c := by
  unfold renCol
  split <;> simp

theorem leftPart_empty_suf (ov : List String) (row : Row) :
    leftPart ov "" row = row := by
  unfold leftPart
  simp [renCol_empty_suf]

theorem leftPart_nil_ov (sl : String) (row : Row) : leftPart [] sl row = row := by
  simp [leftPart, renCol]

theorem map_renCol_empty (ov : List String) (l : List String) :
    l.map (renCol ov "") = l := by
  have h : renCol ov "" = id := by
    funext c
    rw [renCol_empty_suf]
    rfl
  rw [h, List.map_id]

theorem getVal_filter_dup (row : Row) (c : String) (hc : strEnds c "_dup" = false) :
    getVal (row.filter (fun p => !(strEnds p.fst "_dup"))) c = getVal row c := by
  induction row with
  | nil => rfl
  | cons p t ih =>
    rw [List.filter_cons]
    by_cases hp : (p.fst == c) = true
    · have hpc : p.fst = c := beq_iff_eq.mp hp
      rw [if_pos (by rw [hpc, hc]; rfl)]
      rw [getVal_cons_pos p _ c hp, getVal_cons_pos p t c hp]
    · by_cases hkeep : (!(strEnds p.fst "_dup")) = true
      · rw [if_pos hkeep, getVal_cons_neg p _ c hp, getVal_cons_neg p t c hp]
        exact ih
      · rw [if_neg hkeep, getVal_cons_neg p t c hp]
        exact ih

theorem getVal_keyed_missing (cols : List String) (key : String) (v : Option String)
    (rest : Row) (h : key ∈ cols) :
    getVal (cols.map (fun c => (c, if c == key then v else none)) ++ rest) key = v := by
  induction cols with
  | nil => exact absurd h (List.not_mem_nil key)
  | cons d t ih =>
    rw [List.map_cons, List.cons_append]
    by_cases hd : (d == key) = true
    · rw [getVal_cons_pos _ _ key (by simpa using hd)]
      simp [hd]
    · rw [getVal_cons_neg _ _ key (by simpa using hd)]
      have hkt : key ∈ t := by
        rcases List.mem_cons.mp h with rfl | ht
        · simp at hd
        · exact ht
      exact ih hkt

/-! ## Helper lemmas on canonicalized rows -/

theorem hasCol_canonRow (row : Row) (c : String) :
    hasCol (canonRow row) c = hasCol row c := by
  induction row with
  | nil => rfl
  | cons p t ih =>
    unfold canonRow at *
    rw [List.map_cons]
    by_cases hz : (p.fst == "ZIPCODE") = true
    · simp only [hz, if_pos, hasCol, List.any_cons] at *
      rw [ih]
    · simp only [hz, if_neg, hasCol, List.any_cons, Bool.false_eq_true,
        if_false] at *
      rw [ih]

theorem getVal_canonRow_ne (row : Row) (c : String) (hc : c ≠ "ZIPCODE") :
    getVal (canonRow row) c = getVal row c := by
  induction row with
  | nil => rfl
  | cons p t ih =>
    unfold canonRow at *
    rw [List.map_cons]
    by_cases hp : (p.fst == c) = true
    · have hpz : ¬(p.fst == "ZIPCODE") = true := by
        rw [beq_iff_eq.mp hp]
        simpa using hc
      rw [if_neg hpz, getVal_cons_pos p _ c hp, getVal_cons_pos p t c hp]
    · by_cases hz : (p.fst == "ZIPCODE") = true
      · rw [if_pos hz, getVal_cons_neg (p.fst, canonCell p.snd) _ c hp,
          getVal_cons_neg p t c hp]
        exact ih
      · rw [if_neg hz, getVal_cons_neg p _ c hp, getVal_cons_neg p t c hp]
        exact ih

/-! ## Helper lemmas on merge row counts -/

theorem length_flatMap_of_one {α β : Type _} (l : List α) (f : α → List β)
    (h : ∀ x ∈ l, (f x).length = 1) : (l.flatMap f).length = l.length := by
  induction l with
  | nil => rfl
  | cons x t ih =>
    rw [List.flatMap_cons, List.length_append, h x (List.mem_cons_self x t),
      ih (fun y hy => h y (List.mem_cons_of_mem x hy)), List.length_cons]
    omega

theorem matches_len_le_one (rows : List Row) (key : String) (k : Option String)
    (hpw : rows.Pairwise (fun r1 r2 => getVal r1 key ≠ getVal r2 key)) :
    (rows.filter (fun rr => getVal rr key == k)).length ≤ 1 := by
  induction rows with
  | nil => simp
  | cons r t ih =>
    rw [List.pairwise_cons] at hpw
    rw [List.filter_cons]
    by_cases hr : (getVal r key == k) = true
    · rw [if_pos hr]
      have ht : t.filter (fun rr => getVal rr key == k) = [] := by
        rw [List.filter_eq_nil_iff]
        intro u hu huk
        exact hpw.1 u hu (by rw [beq_iff_eq.mp hr, beq_iff_eq.mp huk])
      rw [ht]
      simp
    · rw [if_neg hr]
      exact Nat.le_trans (Nat.le_refl _) (ih hpw.2)

theorem leftMergeRows_length_of_unique (l r : Table) (key sl sr : String)
    (hpw : r.rows.Pairwise (fun r1 r2 => getVal r1 key ≠ getVal r2 key)) :
    (leftMergeRows l r key sl sr).length = l.rows.length := by
  unfold leftMergeRows
  apply length_flatMap_of_one
  intro lr _
  cases hm : matchesOf r key (getVal lr key) with
  | nil => rfl
  | cons m mt =>
    show ((m :: mt).map (fun rr =>
        leftPart (overlapCols l r key) sl lr
          ++ rightPart (overlapCols l r key) sr key rr)).length = 1
    have hle := matches_len_le_one r.rows key (getVal lr key) hpw
    unfold matchesOf at hm
    rw [hm] at hle
    rw [List.length_map, List.length_cons]
    rw [List.length_cons] at hle
    omega

/-- Claim C2 counterexample: a boundary table with one row for identifier
11111 left-joined with a statistical table holding two rows for 11111
yields two merged rows, not exactly one row per boundary row. -/
theorem left_join_duplicates_boundary_row :
    (merge_with_boundaries boundaryEx acsDupEx).rows.length = 2
    ∧ boundaryEx.rows.length = 1 := by
  decide

/-- Claim C2 amended: a boundary row whose canonical identifier matches no
cleaned statistical row is kept by the left join with its boundary
attributes (geometry included) intact and a missing value in every
statistical column; and when the statistical rows carry pairwise distinct
identifiers the merged result has exactly one row per boundary row. -/
theorem left_join_keeps_unmatched_boundaries :
    ∀ (b a : Table),
      (∀ c ∈ b.cols, c ≠ "ZIPCODE" → a.cols.contains c = false) →
      (∀ r ∈ b.rows, ∀ p ∈ r, p.fst ∈ b.cols) →
      (∀ r ∈ b.rows,
        matchesOf (canonZipCol a) "ZIPCODE" (getVal (canonRow r) "ZIPCODE") = [] →
        ∃ mr ∈ (merge_with_boundaries b a).rows,
          (∀ c ∈ b.cols, c ≠ "ZIPCODE" → getVal mr c = getVal r c)
          ∧ (∀ c ∈ a.cols, c ≠ "ZIPCODE" → getVal mr c = none))
      ∧ ((canonZipCol a).rows.Pairwise
            (fun r1 r2 => getVal r1 "ZIPCODE" ≠ getVal r2 "ZIPCODE") →
          (merge_with_boundaries b a).rows.length = b.rows.length) := by
  intro b a hdisj hwf
  have hov : overlapCols (canonZipCol b) (canonZipCol a) "ZIPCODE" = [] := by
    unfold overlapCols canonZipCol
    rw [List.filter_eq_nil_iff]
    intro c hc hb
    rw [Bool.and_eq_true] at hb
    have hcz : c ≠ "ZIPCODE" := by simpa using hb.1
    have h2 := hdisj c hc hcz
    rw [h2] at hb
    exact absurd hb.2 (by simp)
  constructor
  · intro r hr hnomatch
    refine ⟨canonRow r
        ++ missingRight (rightColsRen (canonZipCol a) [] "_y" "ZIPCODE"), ?_, ?_, ?_⟩
    · show _ ∈ leftMergeRows (canonZipCol b) (canonZipCol a) "ZIPCODE" "_x" "_y"
      unfold leftMergeRows
      simp only [hov]
      apply List.mem_flatMap.mpr
      refine ⟨canonRow r, List.mem_map_of_mem canonRow hr, ?_⟩
      rw [hnomatch, leftPart_nil_ov]
      exact List.mem_singleton.mpr rfl
    · intro c hcb hcz
      by_cases hh : hasCol (canonRow r) c = true
      · rw [getVal_append_has _ _ _ hh, getVal_canonRow_ne r c hcz]
      · have hh' : hasCol (canonRow r) c = false := by simpa using hh
        rw [getVal_append_not_has _ _ _ hh', getVal_missingRight]
        have hrc : hasCol r c = false := by rw [← hasCol_canonRow]; exact hh'
        rw [getVal_none_of_not_has r c hrc]
    · intro c hca hcz
      have hcb : c ∉ b.cols := by
        intro hmem
        have h2 := hdisj c hmem hcz
        have h3 := contains_of_mem hca
        rw [h2] at h3
        exact absurd h3 (by simp)
      have hnames : hasCol (canonRow r) c = false := by
        rw [hasCol_canonRow]
        exact hasCol_false_of_not_mem r b.cols c (hwf r hr) hcb
      rw [getVal_append_not_has _ _ _ hnames, getVal_missingRight]
  · intro hpw
    have hlen := leftMergeRows_length_of_unique (canonZipCol b) (canonZipCol a)
      "ZIPCODE" "_x" "_y" hpw
    calc (merge_with_boundaries b a).rows.length
        = (leftMergeRows (canonZipCol b) (canonZipCol a) "ZIPCODE" "_x" "_y").length := rfl
      _ = (canonZipCol b).rows.length := hlen
      _ = b.rows.length := by
          unfold canonZipCol
          rw [List.length_map]

/-- Witness for the amended C2: the single boundary row of `boundaryEx` has
no match in `acsMissEx`, and the join keeps exactly one row per boundary
row. -/
theorem left_join_keeps_unmatched_boundaries_witness :
    (merge_with_boundaries boundaryEx acsMissEx).rows.length
      = boundaryEx.rows.length :=
  (left_join_keeps_unmatched_boundaries boundaryEx acsMissEx (by decide)
    (by decide)).2 (by decide)

/-! ## Helper lemmas on the chunk merge step -/

theorem findSharedZip_first (dc cc : List String)
    (h1 : dc.contains "zip code tabulation area" = true)
    (h2 : cc.contains "zip code tabulation area" = true) :
    findSharedZip dc cc = some "zip code tabulation area" := by
  unfold findSharedZip zipCandidates
  rw [List.find?_cons_of_pos _ (by rw [h1, h2]; rfl)]

theorem mergeChunkStep_keeps_zip_col (df chunk : Table)
    (h1 : df.cols.contains "zip code tabulation area" = true)
    (h2 : chunk.cols.contains "zip code tabulation area" = true) :
    (mergeChunkStep df chunk).cols.contains "zip code tabulation area" = true := by
  unfold mergeChunkStep
  rw [findSharedZip_first df.cols chunk.cols h1 h2]
  apply contains_of_mem
  show "zip code tabulation area"
    ∈ (mergedCols df chunk "zip code tabulation area" "" "_dup").filter
        (fun c => !(strEnds c "_dup"))
  apply List.mem_filter.mpr
  constructor
  · unfold mergedCols
    apply List.mem_append_left
    rw [map_renCol_empty]
    exact mem_of_contains h1
  · decide

theorem keys_in_outerMerge_left (df chunk : Table) (key : String) (k : String)
    (r : Row) (hr : r ∈ df.rows) (hrk : getVal r key = some k) :
    ∃ mr ∈ (outerMerge df chunk key "" "_dup").rows, getVal mr key = some k := by
  have hhas : hasCol r key = true := hasCol_of_getVal_some r key k hrk
  cases hm : matchesOf chunk key (getVal r key) with
  | nil =>
    refine ⟨leftPart (overlapCols df chunk key) "" r
        ++ missingRight (rightColsRen chunk (overlapCols df chunk key) "_dup" key),
      ?_, ?_⟩
    · apply List.mem_append_left
      unfold leftMergeRows
      apply List.mem_flatMap.mpr
      refine ⟨r, hr, ?_⟩
      rw [hm]
      exact List.mem_singleton.mpr rfl
    · rw [leftPart_empty_suf, getVal_append_has _ _ _ hhas, hrk]
  | cons m mt =>
    refine ⟨leftPart (overlapCols df chunk key) "" r
        ++ rightPart (overlapCols df chunk key) "_dup" key m, ?_, ?_⟩
    · apply List.mem_append_left
      unfold leftMergeRows
      apply List.mem_flatMap.mpr
      refine ⟨r, hr, ?_⟩
      rw [hm]
      exact List.mem_map_of_mem _ (List.mem_cons_self m mt)
    · rw [leftPart_empty_suf, getVal_append_has _ _ _ hhas, hrk]

theorem keys_in_outerMerge_right (df chunk : Table) (key : String) (k : String)
    (hkey : key ∈ df.cols)
    (r : Row) (hr : r ∈ chunk.rows) (hrk : getVal r key = some k) :
    ∃ mr ∈ (outerMerge df chunk key "" "_dup").rows, getVal mr key = some k := by
  by_cases hmatch : (df.rows.any (fun lr => getVal lr key == getVal r key)) = true
  · rw [List.any_eq_true] at hmatch
    obtain ⟨lr, hlr, hbeq⟩ := hmatch
    have hlrk : getVal lr key = some k := by rw [beq_iff_eq.mp hbeq, hrk]
    exact keys_in_outerMerge_left df chunk key k lr hlr hlrk
  · have hm' : (df.rows.any (fun lr => getVal lr key == getVal r key)) = false := by
      simpa using hmatch
    refine ⟨df.cols.map (fun c => (renCol (overlapCols df chunk key) "" c,
        if c == key then getVal r key else none))
        ++ rightPart (overlapCols df chunk key) "_dup" key r, ?_, ?_⟩
    · exact List.mem_append_right _
        (List.mem_map_of_mem _ (List.mem_filter.mpr ⟨hr, by rw [hm']; rfl⟩))
    · have hfun : (fun c => (renCol (overlapCols df chunk key) "" c,
          if c == key then getVal r key else none))
          = (fun c => (c, if c == key then getVal r key else none)) := by
        funext c
        rw [renCol_empty_suf]
      rw [hfun, getVal_keyed_missing df.cols key (getVal r key) _ hkey, hrk]

theorem mergeChunkStep_keeps_keys (df chunk : Table)
    (h1 : df.cols.contains "zip code tabulation area" = true)
    (h2 : chunk.cols.contains "zip code tabulation area" = true)
    (k : String)
    (hk : (∃ r ∈ df.rows, getVal r "zip code tabulation area" = some k)
      ∨ (∃ r ∈ chunk.rows, getVal r "zip code tabulation area" = some k)) :
    ∃ mr ∈ (mergeChunkStep df chunk).rows,
      getVal mr "zip code tabulation area" = some k := by
  unfold mergeChunkStep
  rw [findSharedZip_first df.cols chunk.cols h1 h2]
  have houter : ∃ mr ∈ (outerMerge df chunk "zip code tabulation area" "" "_dup").rows,
      getVal mr "zip code tabulation area" = some k := by
    rcases hk with ⟨r, hr, hrk⟩ | ⟨r, hr, hrk⟩
    · exact keys_in_outerMerge_left df chunk _ k r hr hrk
    · exact keys_in_outerMerge_right df chunk _ k (mem_of_contains h1) r hr hrk
  obtain ⟨mr, hmr, hmrk⟩ := houter
  refine ⟨mr.filter (fun p => !(strEnds p.fst "_dup")), ?_, ?_⟩
  · exact List.mem_map_of_mem _ hmr
  · rw [getVal_filter_dup mr _ (by decide), hmrk]

theorem mergeAll_keeps_keys :
    ∀ (ts : List Table) (df : Table),
      df.cols.contains "zip code tabulation area" = true →
      (∀ t ∈ ts, t.cols.contains "zip code tabulation area" = true) →
      ∀ k : String,
        ((∃ r ∈ df.rows, getVal r "zip code tabulation area" = some k)
          ∨ ∃ t ∈ ts, ∃ r ∈ t.rows, getVal r "zip code tabulation area" = some k) →
        ∃ mr ∈ (ts.foldl mergeChunkStep df).rows,
          getVal mr "zip code tabulation area" = some k := by
  intro ts
  induction ts with
  | nil =>
    intro df _ _ k hk
    rcases hk with h | ⟨t, ht, _⟩
    · exact h
    · exact absurd ht (List.not_mem_nil t)
  | cons t ts ih =>
    intro df hdf hall k hk
    rw [List.foldl_cons]
    have ht := hall t (List.mem_cons_self t ts)
    apply ih (mergeChunkStep df t) (mergeChunkStep_keeps_zip_col df t hdf ht)
      (fun u hu => hall u (List.mem_cons_of_mem t hu)) k
    rcases hk with h | ⟨u, hu, hr⟩
    · exact Or.inl (mergeChunkStep_keeps_keys df t hdf ht k (Or.inl h))
    · rcases List.mem_cons.mp hu with rfl | hu2
      · exact Or.inl (mergeChunkStep_keeps_keys df u hdf ht k (Or.inr hr))
      · exact Or.inr ⟨u, hu2, hr⟩

/-- Claim C10: the chunk merge is an outer join on the shared identifier
column: (1) every identifier appearing in at least one collected chunk
table appears in the fold of the merge step over the chunk tables; (2) for
an identifier present in the accumulated table but absent from the next
chunk, the merge step produces a row carrying that identifier with a
missing value in the chunk's own variable column. -/
theorem chunk_merge_outer_join_on_identifier :
    (∀ (ts : List Table) (t0 : Table),
      (∀ t ∈ t0 :: ts, t.cols.contains "zip code tabulation area" = true) →
      ∀ k : String,
        (∃ t ∈ t0 :: ts, ∃ r ∈ t.rows,
          getVal r "zip code tabulation area" = some k) →
        ∃ mr ∈ (ts.foldl mergeChunkStep t0).rows,
          getVal mr "zip code tabulation area" = some k)
    ∧ (∀ (df chunk : Table),
        df.cols.contains "zip code tabulation area" = true →
        chunk.cols.contains "zip code tabulation area" = true →
        (∀ r ∈ df.rows, ∀ p ∈ r, p.fst ∈ df.cols) →
        ∀ (k c : String),
          (∃ r ∈ df.rows, getVal r "zip code tabulation area" = some k) →
          (∀ r ∈ chunk.rows, getVal r "zip code tabulation area" ≠ some k) →
          c ∈ chunk.cols → c ≠ "zip code tabulation area" →
          df.cols.contains c = false → strEnds c "_dup" = false →
          ∃ mr ∈ (mergeChunkStep df chunk).rows,
            getVal mr "zip code tabulation area" = some k
            ∧ getVal mr c = none) := by
  constructor
  · intro ts t0 hall k hk
    apply mergeAll_keeps_keys ts t0 (hall t0 (List.mem_cons_self t0 ts))
      (fun u hu => hall u (List.mem_cons_of_mem t0 hu)) k
    obtain ⟨t, ht, r, hr, hrk⟩ := hk
    rcases List.mem_cons.mp ht with rfl | ht2
    · exact Or.inl ⟨r, hr, hrk⟩
    · exact Or.inr ⟨t, ht2, r, hr, hrk⟩
  · intro df chunk h1 h2 hwf k c hk hnochunk hcmem hcne hcnotdf hcdup
    unfold mergeChunkStep
    rw [findSharedZip_first df.cols chunk.cols h1 h2]
    obtain ⟨r, hr, hrk⟩ := hk
    have hmOf : matchesOf chunk "zip code tabulation area"
        (getVal r "zip code tabulation area") = [] := by
      unfold matchesOf
      rw [List.filter_eq_nil_iff]
      intro rr hrr hb
      exact hnochunk rr hrr (by rw [beq_iff_eq.mp hb]; exact hrk)
    have hnames : hasCol r c = false :=
      hasCol_false_of_not_mem r df.cols c (hwf r hr)
        (fun hm => by rw [contains_of_mem hm] at hcnotdf; exact Bool.noConfusion hcnotdf)
    refine ⟨(leftPart (overlapCols df chunk "zip code tabulation area") "" r
        ++ missingRight (rightColsRen chunk
            (overlapCols df chunk "zip code tabulation area") "_dup"
            "zip code tabulation area")).filter
          (fun p => !(strEnds p.fst "_dup")), ?_, ?_, ?_⟩
    · apply List.mem_map_of_mem
      apply List.mem_append_left
      unfold leftMergeRows
      apply List.mem_flatMap.mpr
      refine ⟨r, hr, ?_⟩
      rw [hmOf]
      exact List.mem_singleton.mpr rfl
    · rw [getVal_filter_dup _ _ (by decide), leftPart_empty_suf,
        getVal_append_has _ _ _ (hasCol_of_getVal_some r _ k hrk), hrk]
    · rw [getVal_filter_dup _ _ hcdup, leftPart_empty_suf,
        getVal_append_not_has _ _ _ hnames, getVal_missingRight]

/-- Witness for C10 on two concrete one-row chunk tables: the identifier
64102, present only in the second chunk, survives the merge fold; and the
identifier 64101, absent from the second chunk, gets a missing value in
the second chunk's variable column. -/
theorem chunk_merge_outer_join_on_identifier_witness :
    (∃ mr ∈ ([chunkEx2].foldl mergeChunkStep chunkEx1).rows,
      getVal mr "zip code tabulation area" = some "64102")
    ∧ ∃ mr ∈ (mergeChunkStep chunkEx1 chunkEx2).rows,
        getVal mr "zip code tabulation area" = some "64101"
        ∧ getVal mr "B19013_001E" = none :=
  ⟨chunk_merge_outer_join_on_identifier.1 [chunkEx2] chunkEx1 (by decide)
      "64102" (by decide),
   chunk_merge_outer_join_on_identifier.2 chunkEx1 chunkEx2 (by decide) (by decide)
      (by decide) "64101" "B19013_001E" (by decide) (by decide) (by decide)
      (by decide) (by decide) (by decide)⟩
